import Mathlib

/-!
Verification development for the Prep toolset resolution and caching engine.

The definitions below are a shallow embedding of `src/prep/src/toolset.rs`,
`src/prep/src/tools/mod.rs`, `src/prep/src/tools/ripgrep.rs` and
`src/prep/src/environment.rs`, together with the parts of the `semver`
crate's version/requirement matching that the engine depends on.
Filesystem and subprocess effects are modelled by explicit state passing:
probing a binary is an oracle `BinCtx → ProbeResult`, manifest writes and
warnings are recorded in an `Effects` log, and Rust `HashMap`/`BTreeMap`
values are modelled as association lists (`BTreeMap` entries kept sorted
ascending by key, as the Rust container guarantees).
-/

namespace Prep

/-- Pre-release identifier of a semantic version: numeric or alphanumeric,
as in the `semver` crate. -/
inductive PreId where
  | num (n : Nat)
  | alpha (s : String)
deriving DecidableEq, Repr

/-- Three-way comparison on naturals. -/
def natComp (a b : Nat) : Ordering :=
  if a < b then .lt else if b < a then .gt else .eq

/-- Three-way lexical comparison on strings. -/
def strComp (a b : String) : Ordering :=
  if a = b then .eq else if a < b then .lt else .gt

/-- Comparison of two pre-release identifiers: numeric identifiers compare
numerically and sort below alphanumeric ones; alphanumeric identifiers
compare lexically. -/
def PreId.comp : PreId → PreId → Ordering
  | .num a, .num b => natComp a b
  | .num _, .alpha _ => .lt
  | .alpha _, .num _ => .gt
  | .alpha a, .alpha b => strComp a b

/-- Lexicographic comparison of pre-release identifier lists; a strict
initial segment sorts below its extensions. -/
def preListComp : List PreId → List PreId → Ordering
  | [], [] => .eq
  | [], _ :: _ => .lt
  | _ :: _, [] => .gt
  | a :: as, b :: bs =>
    match PreId.comp a b with
    | .eq => preListComp as bs
    | o => o

/-- Comparison of the pre-release components of two versions: an empty
pre-release (a release) compares greater than any pre-release, otherwise
identifiers are compared lexicographically. -/
def preComp : List PreId → List PreId → Ordering
  | [], [] => .eq
  | [], _ :: _ => .gt
  | _ :: _, [] => .lt
  | a :: as, b :: bs => preListComp (a :: as) (b :: bs)

/-- Semantic version, as in the `semver` crate with build metadata omitted
(the engine never inspects build metadata). -/
structure Version where
  major : Nat
  minor : Nat
  patch : Nat
  pre : List PreId
deriving DecidableEq, Repr

/-- Total semantic-version comparison: major, minor, patch, then
pre-release. -/
def Version.comp (a b : Version) : Ordering :=
  match natComp a.major b.major with
  | .eq =>
    match natComp a.minor b.minor with
    | .eq =>
      match natComp a.patch b.patch with
      | .eq => preComp a.pre b.pre
      | o => o
    | o => o
  | o => o

/-- Strict version order as a Boolean. -/
def Version.lt (a b : Version) : Bool :=
  decide (a.comp b = .lt)

/-- Comparator operators of the `semver` crate. -/
inductive Op where
  | exact
  | greater
  | greaterEq
  | less
  | lessEq
  | tilde
  | caret
  | wildcard
deriving DecidableEq, Repr

/-- One comparator of a version requirement. -/
structure Comparator where
  op : Op
  major : Nat
  minor : Option Nat
  patch : Option Nat
  pre : List PreId
deriving DecidableEq, Repr

/-- Version requirement: a conjunction of comparators. -/
structure VersionReq where
  comparators : List Comparator
deriving DecidableEq, Repr

/-- Boolean test for pre-release greater-than, with the empty pre-release
greatest. -/
def preGt (a b : List PreId) : Bool :=
  decide (preComp a b = .gt)

/-- Boolean test for pre-release less-than, with the empty pre-release
greatest. -/
def preLtB (a b : List PreId) : Bool :=
  decide (preComp a b = .lt)

/-- Boolean test for pre-release greater-or-equal, with the empty
pre-release greatest. -/
def preGe (a b : List PreId) : Bool :=
  decide (preComp a b ≠ .lt)

/-- Matching for `=` (and wildcard) comparators, from the `semver` crate's
`matches_exact`. -/
def matchesExact (cmp : Comparator) (ver : Version) : Bool :=
  decide (ver.major = cmp.major)
  && (match cmp.minor with | none => true | some minor => decide (ver.minor = minor))
  && (match cmp.patch with | none => true | some patch => decide (ver.patch = patch))
  && decide (ver.pre = cmp.pre)

/-- Matching for `>` comparators, from the `semver` crate's
`matches_greater`. -/
def matchesGreater (cmp : Comparator) (ver : Version) : Bool :=
  if ver.major ≠ cmp.major then decide (ver.major > cmp.major)
  else
    match cmp.minor with
    | none => false
    | some minor =>
      if ver.minor ≠ minor then decide (ver.minor > minor)
      else
        match cmp.patch with
        | none => false
        | some patch =>
          if ver.patch ≠ patch then decide (ver.patch > patch)
          else preGt ver.pre cmp.pre

/-- Matching for `<` comparators, from the `semver` crate's
`matches_less`. -/
def matchesLess (cmp : Comparator) (ver : Version) : Bool :=
  if ver.major ≠ cmp.major then decide (ver.major < cmp.major)
  else
    match cmp.minor with
    | none => false
    | some minor =>
      if ver.minor ≠ minor then decide (ver.minor < minor)
      else
        match cmp.patch with
        | none => false
        | some patch =>
          if ver.patch ≠ patch then decide (ver.patch < patch)
          else preLtB ver.pre cmp.pre

/-- Matching for `~` comparators, from the `semver` crate's
`matches_tilde`. -/
def matchesTilde (cmp : Comparator) (ver : Version) : Bool :=
  if ver.major ≠ cmp.major then false
  else if (match cmp.minor with | none => false | some minor => decide (ver.minor ≠ minor)) then false
  else
    match cmp.patch with
    | some patch =>
      if ver.patch ≠ patch then decide (ver.patch > patch) else preGe ver.pre cmp.pre
    | none => preGe ver.pre cmp.pre

/-- Matching for `^` comparators, from the `semver` crate's
`matches_caret`. -/
def matchesCaret (cmp : Comparator) (ver : Version) : Bool :=
  if ver.major ≠ cmp.major then false
  else
    match cmp.minor with
    | none => true
    | some minor =>
      match cmp.patch with
      | none =>
        if cmp.major > 0 then decide (ver.minor ≥ minor) else decide (ver.minor = minor)
      | some patch =>
        if cmp.major > 0 then
          if ver.minor ≠ minor then decide (ver.minor > minor)
          else if ver.patch ≠ patch then decide (ver.patch > patch)
          else preGe ver.pre cmp.pre
        else if minor > 0 then
          if ver.minor ≠ minor then false
          else if ver.patch ≠ patch then decide (ver.patch > patch)
          else preGe ver.pre cmp.pre
        else if ver.minor ≠ minor ∨ ver.patch ≠ patch then false
        else preGe ver.pre cmp.pre

/-- Dispatch of a single comparator on its operator, from the `semver`
crate's `matches_impl`. -/
def matchesImpl (cmp : Comparator) (ver : Version) : Bool :=
  match cmp.op with
  | .exact | .wildcard => matchesExact cmp ver
  | .greater => matchesGreater cmp ver
  | .greaterEq => matchesExact cmp ver || matchesGreater cmp ver
  | .less => matchesLess cmp ver
  | .lessEq => matchesExact cmp ver || matchesLess cmp ver
  | .tilde => matchesTilde cmp ver
  | .caret => matchesCaret cmp ver

/-- Whether a comparator authorizes pre-release versions of the same
major.minor.patch, from the `semver` crate's `pre_is_compatible`. -/
def preIsCompatible (cmp : Comparator) (ver : Version) : Bool :=
  decide (cmp.major = ver.major)
  && decide (cmp.minor = some ver.minor)
  && decide (cmp.patch = some ver.patch)
  && !cmp.pre.isEmpty

/-- Requirement matching: every comparator must match, and a pre-release
version additionally needs some comparator that explicitly allows
pre-releases at its exact triple. This is `VersionReq::matches` of the
`semver` crate. -/
def reqMatches (req : VersionReq) (ver : Version) : Bool :=
  req.comparators.all (fun cmp => matchesImpl cmp ver)
  && (ver.pre.isEmpty || req.comparators.any (fun cmp => preIsCompatible cmp ver))

/-- Lookup in an association list, returning the value of the first pair
with the given key. Models `HashMap::get` / `BTreeMap::get`. -/
def assocGet {κ α : Type} [DecidableEq κ] (k : κ) : List (κ × α) → Option α
  | [] => none
  | (k', v) :: rest => if k = k' then some v else assocGet k rest

/-- Insert-or-replace in an association list: the first pair with the
given key is replaced in place, otherwise the pair is appended. Models
`HashMap::insert` / `BTreeMap::get_mut`-then-assign. -/
def assocSet {κ α : Type} [DecidableEq κ] : List (κ × α) → κ → α → List (κ × α)
  | [], k, v => [(k, v)]
  | (k', v') :: rest, k, v =>
    if k = k' then (k, v) :: rest else (k', v') :: assocSet rest k v

/-- Insert into a sorted variable map, replacing the value if the key is
already present. Models `BTreeMap::insert` for `String` keys. -/
def insertVar (k v : String) : List (String × String) → List (String × String)
  | [] => [(k, v)]
  | (k', v') :: rest =>
    if k < k' then (k, v) :: (k', v') :: rest
    else if k = k' then (k, v) :: rest
    else (k', v') :: insertVar k v rest

/-- Remove the entry with the given key from a variable map, if present.
Models `BTreeMap::remove` for `String` keys. -/
def removeVar (k : String) : List (String × String) → List (String × String)
  | [] => []
  | (k', v') :: rest => if k = k' then rest else (k', v') :: removeVar k rest

/-- Set of environment variables for running a binary, from
`environment.rs`. The `BTreeMap` is modelled as a key-sorted association
list. -/
structure Environment where
  vars : List (String × String)
deriving DecidableEq, Repr

/-- Creates the default set of environment variables
(`Environment::new`). -/
def Environment.new : Environment :=
  ⟨[("RUSTUP_AUTO_INSTALL", "0")]⟩

/-- Sets or clears the pinned Rust toolchain (`Environment::rust`). -/
def Environment.rust (e : Environment) (toolchain_name : Option String) : Environment :=
  match toolchain_name with
  | some n => ⟨insertVar "RUSTUP_TOOLCHAIN" n e.vars⟩
  | none => ⟨removeVar "RUSTUP_TOOLCHAIN" e.vars⟩

/-- Binary executable context, from `tools/mod.rs` (`BinCtx`). Paths are
modelled as strings. -/
structure BinCtx where
  path : String
  working_dir : String
  environment : Environment
  args : List String
deriving DecidableEq, Repr

/-- Creates a new binary context with no argument list (`BinCtx::new`). -/
def BinCtx.new (path working_dir : String) (environment : Environment) : BinCtx :=
  ⟨path, working_dir, environment, []⟩

/-- Returns the context with the given base arguments; this is
`BinCtx::args`, which overwrites the stored argument list. -/
def BinCtx.setArgs (c : BinCtx) (args : List String) : BinCtx :=
  { c with args := args }

/-- Session cache entry, from `toolset.rs` (`BinInfo`). -/
structure BinInfo where
  name : String
  version : Version
deriving DecidableEq, Repr

/-- Calendar dates are modelled as days since an epoch; only their total
order matters to the engine. -/
abbrev Date := Nat

/-- Information about one tool installation, from `toolset.rs`
(`Installation`). -/
structure Installation where
  path : String
  used : Date
deriving DecidableEq, Repr

/-- The installed tools manifest, from `toolset.rs` (`Manifest`). The
outer `HashMap` is an association list; each inner `BTreeMap` is an
association list sorted ascending by version. -/
structure Manifest where
  tools : List (String × List (Version × Installation))
deriving DecidableEq, Repr

/-- Creates a new empty tool manifest (`Manifest::new`). -/
def Manifest.new : Manifest :=
  ⟨[]⟩

/-- Returns the installation path and version of the specified tool,
scanning the version map in reverse so that the highest satisfying
version wins (`Manifest::get`). -/
def Manifest.get (m : Manifest) (name : String) (req : VersionReq) : Option (Version × String) :=
  match assocGet name m.tools with
  | none => none
  | some tool =>
    match tool.reverse.find? (fun p => reqMatches req p.1) with
    | none => none
    | some p => some (p.1, p.2.path)

/-- Insert into a version-sorted installation map, replacing an existing
entry for the same version. Models `BTreeMap::insert` for `Version`
keys. -/
def btreeInsert (v : Version) (inst : Installation) :
    List (Version × Installation) → List (Version × Installation)
  | [] => [(v, inst)]
  | (v', inst') :: rest =>
    match Version.comp v v' with
    | .lt => (v, inst) :: (v', inst') :: rest
    | .eq => (v, inst) :: rest
    | .gt => (v', inst') :: btreeInsert v inst rest

/-- Sets the given tool's version to a path, first evicting any other
version of the same tool whose recorded path collides
(`Manifest::set`). -/
def Manifest.set (m : Manifest) (name : String) (version : Version) (path : String)
    (today : Date) : Manifest :=
  let tool := (assocGet name m.tools).getD []
  let tool := tool.filter (fun p => decide (p.2.path ≠ path))
  ⟨assocSet m.tools name (btreeInsert version ⟨path, today⟩ tool)⟩

/-- Removes the given tool's version from the manifest, reporting whether
anything changed (`Manifest::remove`). -/
def Manifest.remove (m : Manifest) (name : String) (version : Version) : Bool × Manifest :=
  match assocGet name m.tools with
  | none => (false, m)
  | some tool =>
    (tool.any (fun p => decide (p.1 = version)),
     ⟨assocSet m.tools name (tool.filter (fun p => decide (p.1 ≠ version)))⟩)

/-- Sets the last used date of the specified tool version when the new
date is strictly later, reporting whether anything changed
(`Manifest::mark_used`). -/
def Manifest.mark_used (m : Manifest) (name : String) (version : Version)
    (today : Date) : Bool × Manifest :=
  match assocGet name m.tools with
  | none => (false, m)
  | some tool =>
    match assocGet version tool with
    | none => (false, m)
    | some inst =>
      if inst.used < today then
        (true, ⟨assocSet m.tools name (assocSet tool version ⟨inst.path, today⟩)⟩)
      else (false, m)

/-- Result of running a binary with `--version`, the oracle for
`Tool::extract_version`: the binary may be absent, report a version, or
fail hard. -/
inductive ProbeResult where
  | notFound
  | found (v : Version)
  | fails (msg : String)
deriving DecidableEq, Repr

/-- Log of the observable effects of one engine operation: version probes
issued, manifest file writes, warnings printed, and `set_up`
invocations. -/
structure Effects where
  probes : List BinCtx
  saves : Nat
  warns : List String
  setups : Nat
deriving DecidableEq, Repr

/-- Empty effect log. -/
def Effects.empty : Effects :=
  ⟨[], 0, [], 0⟩

/-- Concatenation of two effect logs in execution order. -/
def Effects.app (a b : Effects) : Effects :=
  ⟨a.probes ++ b.probes, a.saves + b.saves, a.warns ++ b.warns, a.setups + b.setups⟩

/-- Effect log consisting of a single manifest file write. -/
def Effects.oneSave : Effects :=
  ⟨[], 1, [], 0⟩

/-- Process-scoped toolset state, from `toolset.rs` (`Toolset`): the tools
directory, default working directory and environment, the loaded
manifest, and the session cache of verified binary contexts. -/
structure Toolset where
  tools_dir : String
  working_dir : String
  environment : Environment
  manifest : Manifest
  bins : List (BinCtx × BinInfo)
deriving DecidableEq, Repr

/-- Returns a new binary context with the default working directory and
environment (`Toolset::binctx`). -/
def Toolset.binctx (ts : Toolset) (path : String) : BinCtx :=
  BinCtx.new path ts.working_dir ts.environment

/-- Whether the first list is an initial segment of the second. -/
def isInitOf {α : Type} [DecidableEq α] : List α → List α → Bool
  | [], _ => true
  | _ :: _, [] => false
  | a :: as, b :: bs => decide (a = b) && isInitOf as bs

/-- Whether a string starts with the given leading string. -/
def strStarts (s leading : String) : Bool :=
  isInitOf leading.data s.data

/-- Removes the first `n` characters of a string. -/
def strDrop (s : String) (n : Nat) : String :=
  String.mk (s.data.drop n)

/-- Whether a path is relative; on the modelled Unix host a path is
absolute iff it starts with a slash. -/
def isRelative (path : String) : Bool :=
  !strStarts path "/"

/-- Joins a directory and a path with a separator. -/
def joinPath (dir path : String) : String :=
  dir ++ "/" ++ path

/-- Resolution of a manifest path: relative paths are rooted under the
tools directory, as in `Toolset::get`. -/
def resolvePath (tools_dir path : String) : String :=
  if isRelative path then joinPath tools_dir path else path

/-- Strips the tools-directory plus separator from the front of a path
when present, as `Path::strip_prefix(...).unwrap_or(path)` in
`Toolset::get`. -/
def dropToolsDir (tools_dir path : String) : String :=
  if strStarts path (tools_dir ++ "/") then strDrop path (tools_dir ++ "/").length else path

/-- The directory where a tool binary is installed
(`Toolset::install_dir`, with the version rendered inline). -/
def Toolset.install_dir (ts : Toolset) (name : String) (version : Version) : String :=
  ts.tools_dir ++ "/" ++ name ++ "/" ++ toString version.major ++ "." ++
    toString version.minor ++ "." ++ toString version.patch

/-- The temporary staging directory used during a tool installation
(`Toolset::temp_install_dir`). -/
def Toolset.temp_install_dir (ts : Toolset) (name : String) : String :=
  ts.tools_dir ++ "/temp-" ++ name

/-- Session-cache hit for a tool name and context: the cached version if
the context is cached under exactly this tool, as the guard at the top of
`Toolset::version`. -/
def cacheHit (bins : List (BinCtx × BinInfo)) (name : String) (c : BinCtx) : Option Version :=
  match assocGet c bins with
  | some info => if info.name = name then some info.version else none
  | none => none

/-- Probing a binary context and caching a successful result, the tail of
`Toolset::version`: a not-found probe is returned without being cached. -/
def Toolset.probeBin (ts : Toolset) (name : String) (probe : BinCtx → ProbeResult)
    (binctx : BinCtx) : Except String (Option Version × Toolset × Effects) :=
  match probe binctx with
  | .fails msg => .error msg
  | .notFound => .ok (none, ts, ⟨[binctx], 0, [], 0⟩)
  | .found v =>
    .ok (some v, { ts with bins := assocSet ts.bins binctx ⟨name, v⟩ }, ⟨[binctx], 0, [], 0⟩)

/-- Returns the version of a binary context (`Toolset::version`): a
session-cache hit for this tool answers immediately, otherwise the binary
is probed and a successful probe is cached. -/
def Toolset.version (ts : Toolset) (name : String) (probe : BinCtx → ProbeResult)
    (binctx : BinCtx) : Except String (Option Version × Toolset × Effects) :=
  match cacheHit ts.bins name binctx with
  | some v => .ok (some v, ts, Effects.empty)
  | none => ts.probeBin name probe binctx

/-- Error message of a failed verification, from `Toolset::verify`. -/
def verifyErr (name : String) (path : String) : String :=
  "expected " ++ name ++ " at " ++ path ++ " to satisfy the requirement"

/-- Verifies that a binary context is a binary for the given requirement
of the tool (`Toolset::verify`): not-found propagates as `none`, a
version that misses the requirement is a hard error. -/
def Toolset.verify (ts : Toolset) (name : String) (probe : BinCtx → ProbeResult)
    (binctx : BinCtx) (req : VersionReq) : Except String (Option Version × Toolset × Effects) :=
  match ts.version name probe binctx with
  | .error e => .error e
  | .ok (none, ts1, eff) => .ok (none, ts1, eff)
  | .ok (some v, ts1, eff) =>
    if reqMatches req v then .ok (some v, ts1, eff)
    else .error (verifyErr name binctx.path)

/-- The exact requirement `=version` built by `Toolset::get` for
re-verifying a manifest entry (`VersionReq::parse` of
`"={version}"` cannot fail on a rendered version). -/
def exactReq (v : Version) : VersionReq :=
  ⟨[⟨Op.exact, v.major, some v.minor, some v.patch, v.pre⟩]⟩

/-- One wrapped tool as the engine sees it through the `Tool` trait:
its name, default binary name, whether the toolset manages it, and its
`default_binctx` and `set_up` routines (which may themselves drive the
engine, so they transform the whole state and report their effects). -/
structure ToolImpl where
  name : String
  bin : String
  managed : Bool
  defaultCtx : Toolset → Except String (BinCtx × Toolset × Effects)
  setUp : Toolset → VersionReq → Except String ((BinCtx × Version) × Toolset × Effects)

/-- The default `Tool::default_binctx` implementation: a bare binary-name
context with the toolset's working directory and environment. -/
def defaultBinctxImpl (bin : String) : Toolset → Except String (BinCtx × Toolset × Effects) :=
  fun ts => .ok (ts.binctx bin, ts, Effects.empty)

/-- Session-cache scan of `Toolset::get`: the first cached entry whose
tool name matches and whose version satisfies the requirement, in cache
iteration order. -/
def sessionFind (bins : List (BinCtx × BinInfo)) (name : String) (req : VersionReq) :
    Option (BinCtx × BinInfo) :=
  bins.find? (fun p => decide (p.2.name = name) && reqMatches req p.2.version)

/-- Warning printed when a manifest-recorded installation no longer
verifies, from `Toolset::get`. -/
def warnStale (name : String) (path : String) : String :=
  name ++ " installation at " ++ path ++ " no longer exists, removing it from the manifest"

/-- Fresh-install stage of `Toolset::get`: run `set_up`, and for a managed
tool record the result in the manifest (path stored relative to the tools
directory) and save the manifest file. -/
def getSetupStage (tool : ToolImpl) (today : Date) (req : VersionReq) (ts : Toolset)
    (eff : Effects) : Except String (BinCtx × Toolset × Effects) :=
  match tool.setUp ts req with
  | .error e => .error e
  | .ok ((binctx, version), ts1, eff1) =>
    let eff2 := (eff.app eff1).app ⟨[], 0, [], 1⟩
    if tool.managed then
      .ok (binctx,
           { ts1 with manifest :=
               ts1.manifest.set tool.name version (dropToolsDir ts1.tools_dir binctx.path) today },
           eff2.app Effects.oneSave)
    else .ok (binctx, ts1, eff2)

/-- Default-probe stage of `Toolset::get`: obtain the tool's default
context, probe its version, return it if it satisfies the requirement,
otherwise fall through to the fresh-install stage. -/
def getDefaultStage (tool : ToolImpl) (probe : BinCtx → ProbeResult) (today : Date)
    (req : VersionReq) (ts : Toolset) (eff : Effects) :
    Except String (BinCtx × Toolset × Effects) :=
  match tool.defaultCtx ts with
  | .error e => .error e
  | .ok (binctx, ts1, eff1) =>
    match ts1.version tool.name probe binctx with
    | .error e => .error e
    | .ok (verOpt, ts2, eff2) =>
      match verOpt with
      | some v =>
        if reqMatches req v then .ok (binctx, ts2, (eff.app eff1).app eff2)
        else getSetupStage tool today req ts2 ((eff.app eff1).app eff2)
      | none => getSetupStage tool today req ts2 ((eff.app eff1).app eff2)

/-- Manifest-hit stage of `Toolset::get`: re-verify the recorded
installation against the exact recorded version; on success refresh the
last-used date (saving the manifest only when the date changed) and
return the context; on a not-found result warn, evict the stale entry,
save the manifest if anything was removed, and fall through. -/
def manifestHitStep (tool : ToolImpl) (probe : BinCtx → ProbeResult) (today : Date)
    (req : VersionReq) (ts : Toolset) (version : Version) (path : String) :
    Except String (BinCtx × Toolset × Effects) :=
  match ts.verify tool.name probe (ts.binctx (resolvePath ts.tools_dir path))
      (exactReq version) with
  | .error e => .error e
  | .ok (some _, ts1, eff) =>
    .ok (ts.binctx (resolvePath ts.tools_dir path),
         { ts1 with manifest := (ts1.manifest.mark_used tool.name version today).2 },
         if (ts1.manifest.mark_used tool.name version today).1 then eff.app Effects.oneSave
         else eff)
  | .ok (none, ts1, eff) =>
    getDefaultStage tool probe today req
      { ts1 with manifest := (ts1.manifest.remove tool.name version).2 }
      ((eff.app ⟨[], 0, [warnStale tool.name (ts.binctx (resolvePath ts.tools_dir path)).path], 0⟩).app
        (if (ts1.manifest.remove tool.name version).1 then Effects.oneSave else Effects.empty))

/-- The engine's resolution algorithm (`Toolset::get`): no requirement
returns the default context; otherwise try the session cache, then (for a
managed tool) the manifest with on-disk re-verification, then the default
installation, then a fresh install. -/
def Toolset.get (ts : Toolset) (tool : ToolImpl) (probe : BinCtx → ProbeResult)
    (today : Date) (req : Option VersionReq) : Except String (BinCtx × Toolset × Effects) :=
  match req with
  | none => tool.defaultCtx ts
  | some req =>
    match sessionFind ts.bins tool.name req with
    | some hit => .ok (hit.1, ts, Effects.empty)
    | none =>
      match (if tool.managed then ts.manifest.get tool.name req else none) with
      | some vp => manifestHitStep tool probe today req ts vp.1 vp.2
      | none => getDefaultStage tool probe today req ts Effects.empty

/-- State of one filesystem path, for the staging-directory check of
`Ripgrep::set_up`: absent, a regular file, or a directory with the given
number of entries. -/
inductive FsNode where
  | missing
  | file
  | dir (entries : Nat)
deriving DecidableEq, Repr

/-- Whether the path exists (`Path::exists`). -/
def pathExists : FsNode → Bool
  | .missing => false
  | _ => true

/-- Whether the path is a directory and is empty (`empty_dir` in
`ripgrep.rs`). -/
def empty_dir : FsNode → Bool
  | .dir 0 => true
  | _ => false

/-- Abort message of the staging-directory check in `Ripgrep::set_up`. -/
def tempAbortMsg : String :=
  "Temporary ripgrep install directory unexpectedly already exists and is not an empty directory, aborting for safety."

/-- The staging-directory guard of `Ripgrep::set_up` on the state of the
`temp-ripgrep` path: abort when the path exists and is not an empty
directory, otherwise proceed with the path untouched. -/
def ripgrepTempCheck (n : FsNode) : Except String FsNode :=
  if pathExists n && !empty_dir n then .error tempAbortMsg else .ok n

deriving instance DecidableEq for Except

/-- Whether an engine operation failed. -/
def isError {α : Type} : Except String α → Bool
  | .error _ => true
  | .ok _ => false

/-- Number of version probes issued by two consecutive `Toolset::version`
calls for the same tool and context, threading the state of the first
call into the second. -/
def probeCountTwoCalls (ts : Toolset) (name : String) (probe : BinCtx → ProbeResult)
    (c : BinCtx) : Nat :=
  match ts.version name probe c with
  | .error _ => 0
  | .ok (_, ts1, eff1) =>
    match ts1.version name probe c with
    | .error _ => eff1.probes.length
    | .ok (_, _, eff2) => eff1.probes.length + eff2.probes.length

/-- All (tool name, version) pairs of a manifest whose recorded
installation path is the given path. -/
def pathEntries (path : String) : List (String × List (Version × Installation)) →
    List (String × Version)
  | [] => []
  | (name, tool) :: rest =>
    (tool.filter (fun p => decide (p.2.path = path))).map (fun p => (name, p.1)) ++
      pathEntries path rest

/-- Number of entries of one tool's installation map recorded at the given
path. -/
def toolPathCount (tool : List (Version × Installation)) (path : String) : Nat :=
  (tool.filter (fun p => decide (p.2.path = path))).length

/-- Within-tool path uniqueness: in every tool's installation map, each
path carries at most one version. -/
def pathUniqueWithin (m : Manifest) : Prop :=
  ∀ name tool, assocGet name m.tools = some tool → ∀ path, toolPathCount tool path ≤ 1

/-- The recorded installation map of a tool, empty when the tool is
unknown. -/
def toolListOf (m : Manifest) (name : String) : List (Version × Installation) :=
  (assocGet name m.tools).getD []

/-- Keys of the session cache are pairwise distinct. -/
def keysNodup (bins : List (BinCtx × BinInfo)) : Prop :=
  (bins.map Prod.fst).Nodup

/-- Number of session-cache entries for one context. -/
def countKey (c : BinCtx) (bins : List (BinCtx × BinInfo)) : Nat :=
  (bins.filter (fun p => decide (p.1 = c))).length

/-- Version 1.0.0. -/
def v100 : Version := ⟨1, 0, 0, []⟩
/-- Version 2.0.0. -/
def v200 : Version := ⟨2, 0, 0, []⟩
/-- Version 1.2.0. -/
def v120 : Version := ⟨1, 2, 0, []⟩
/-- Version 1.2.3. -/
def v123 : Version := ⟨1, 2, 3, []⟩
/-- Version 1.2.4. -/
def v124 : Version := ⟨1, 2, 4, []⟩
/-- Version 1.2.5. -/
def v125 : Version := ⟨1, 2, 5, []⟩
/-- Version 1.3.0. -/
def v130 : Version := ⟨1, 3, 0, []⟩

/-- Requirement `>=1.0.0`. -/
def reqGe1 : VersionReq := ⟨[⟨Op.greaterEq, 1, some 0, some 0, []⟩]⟩
/-- Requirement `>=1.2.0`. -/
def reqGe120 : VersionReq := ⟨[⟨Op.greaterEq, 1, some 2, some 0, []⟩]⟩
/-- Requirement `=1.2.3`. -/
def reqEq123 : VersionReq := ⟨[⟨Op.exact, 1, some 2, some 3, []⟩]⟩

/-- The ripgrep tool as the engine sees it: managed, with the default
`default_binctx` implementation; `set_up` is not reached in the scenarios
below. -/
def ripgrepTool : ToolImpl :=
  ⟨"ripgrep", "rg", true, defaultBinctxImpl "rg",
   fun _ _ => .error "cargo install failed"⟩

/-- Probe oracle that finds no binary anywhere. -/
def probeNone : BinCtx → ProbeResult :=
  fun _ => .notFound

/-- Cached context of a ripgrep 1.0.0 installation. -/
def ctxA : BinCtx := BinCtx.new "tools/ripgrep/1.0.0/rg" "w" Environment.new
/-- Cached context of a ripgrep 2.0.0 installation. -/
def ctxB : BinCtx := BinCtx.new "tools/ripgrep/2.0.0/rg" "w" Environment.new

/-- Toolset whose session cache holds two satisfying ripgrep contexts,
the lower version first in iteration order. -/
def tsC1 : Toolset :=
  ⟨"tools", "w", Environment.new, Manifest.new,
   [(ctxA, ⟨"ripgrep", v100⟩), (ctxB, ⟨"ripgrep", v200⟩)]⟩

/-- Manifest recording ripgrep 1.2.3 at relative path `p`. -/
def mC2 : Manifest := ⟨[("ripgrep", [(v123, ⟨"p", 0⟩)])]⟩

/-- Toolset with manifest `mC2` and an empty session cache. -/
def tsC2 : Toolset := ⟨"tools", "w", Environment.new, mC2, []⟩

/-- Probe oracle under which the recorded ripgrep binary exists but
reports version 1.2.4 instead of the recorded 1.2.3. -/
def probeC2 : BinCtx → ProbeResult :=
  fun c => if c.path = "tools/p" then .found v124 else .notFound

/-- Toolset with an empty session cache for the re-probe scenario. -/
def tsC4 : Toolset := ⟨"tools", "w", Environment.new, Manifest.new, []⟩

/-- Context of a missing binary. -/
def ctxC4 : BinCtx := BinCtx.new "tools/gone" "w" Environment.new

/-- Manifest obtained by recording path `p` under tool `a` version 1.0.0
and then under tool `b` version 2.0.0. -/
def mC5 : Manifest :=
  (Manifest.new.set "a" v100 "p" 0).set "b" v200 "p" 0

/-- Manifest recording ripgrep 1.2.0, 1.2.5 and 1.3.0 in ascending
order. -/
def mC3 : Manifest :=
  ⟨[("ripgrep", [(v120, ⟨"p1", 0⟩), (v125, ⟨"p2", 0⟩), (v130, ⟨"p3", 0⟩)])]⟩

/-- Installation of ripgrep 1.2.3 at relative path `p`, last used on
day 3. -/
def instC6 : Installation := ⟨"p", 3⟩

/-- Manifest recording only `instC6`. -/
def mC6 : Manifest := ⟨[("ripgrep", [(v123, instC6)])]⟩

/-- Toolset with manifest `mC6` and an empty session cache. -/
def tsC6 : Toolset := ⟨"tools", "w", Environment.new, mC6, []⟩

/-- Probe oracle under which the recorded ripgrep binary exists and
reports exactly the recorded version 1.2.3. -/
def probeOk : BinCtx → ProbeResult :=
  fun c => if c.path = "tools/p" then .found v123 else .notFound

/-- The resolved context of the manifest entry recorded at relative path
`p` under tools directory `tools`. -/
def ctxP : BinCtx := BinCtx.new "tools/p" "w" Environment.new

/-- State `tsC6` after the successful re-verification probe has been
cached. -/
def ts1C6 : Toolset :=
  ⟨"tools", "w", Environment.new, mC6, [(ctxP, ⟨"ripgrep", v123⟩)]⟩

/-- Effect log of a single probe of `ctxP`. -/
def effC6 : Effects := ⟨[ctxP], 0, [], 0⟩

theorem assocGet_assocSet_self {κ α : Type} [DecidableEq κ] (l : List (κ × α)) (k : κ) (v : α) :
    assocGet k (assocSet l k v) = some v := by
  induction l with
  | nil => simp [assocSet, assocGet]
  | cons p t ih =>
    obtain ⟨k0, v0⟩ := p
    by_cases hk : k = k0
    · simp [assocSet, hk, assocGet]
    · simp [assocSet, hk, assocGet, ih]

theorem assocGet_assocSet_ne {κ α : Type} [DecidableEq κ] (l : List (κ × α)) (k k' : κ) (v : α)
    (hne : k' ≠ k) : assocGet k' (assocSet l k v) = assocGet k' l := by
  induction l with
  | nil => simp [assocSet, assocGet, hne]
  | cons p t ih =>
    obtain ⟨k0, v0⟩ := p
    by_cases hk : k = k0
    · subst hk
      simp [assocSet, assocGet, hne]
    · by_cases hk' : k' = k0 <;> simp [assocSet, hk, assocGet, hk', ih]

theorem assocGet_eq_none {κ α : Type} [DecidableEq κ] (l : List (κ × α)) (k : κ)
    (h : k ∉ l.map Prod.fst) : assocGet k l = none := by
  induction l with
  | nil => rfl
  | cons p t ih =>
    obtain ⟨k0, v0⟩ := p
    simp only [List.map_cons, List.mem_cons, not_or] at h
    simp [assocGet, h.1, ih h.2]

theorem mem_keys_assocSet {κ α : Type} [DecidableEq κ] (l : List (κ × α)) (k x : κ) (v : α)
    (hx : x ∈ (assocSet l k v).map Prod.fst) : x = k ∨ x ∈ l.map Prod.fst := by
  induction l with
  | nil => simpa [assocSet] using hx
  | cons p t ih =>
    obtain ⟨k0, v0⟩ := p
    by_cases hk : k = k0
    · subst hk
      simpa [assocSet] using hx
    · simp only [assocSet, hk, if_false, List.map_cons, List.mem_cons] at hx
      rcases hx with hx | hx
      · exact .inr (by simp [hx])
      · rcases ih hx with h | h
        · exact .inl h
        · exact .inr (by simp [h])

theorem nodup_keys_assocSet {κ α : Type} [DecidableEq κ] (l : List (κ × α)) (k : κ) (v : α)
    (h : (l.map Prod.fst).Nodup) : ((assocSet l k v).map Prod.fst).Nodup := by
  induction l with
  | nil => simp [assocSet]
  | cons p t ih =>
    obtain ⟨k0, v0⟩ := p
    simp only [List.map_cons, List.nodup_cons] at h
    by_cases hk : k = k0
    · subst hk
      simpa [assocSet] using h
    · simp only [assocSet, hk, if_false, List.map_cons, List.nodup_cons]
      refine ⟨fun hmem => ?_, ih h.2⟩
      rcases mem_keys_assocSet t k k0 v hmem with h' | h'
      · exact hk (h'.symm)
      · exact h.1 h'

theorem countKey_zero_of_not_mem (l : List (BinCtx × BinInfo)) (c : BinCtx)
    (h : c ∉ l.map Prod.fst) : countKey c l = 0 := by
  induction l with
  | nil => rfl
  | cons p t ih =>
    simp only [List.map_cons, List.mem_cons, not_or] at h
    have hp : decide (p.1 = c) = false := by
      simp [Ne.symm h.1]
    unfold countKey
    rw [List.filter_cons, hp]
    simpa [countKey] using ih h.2

theorem countKey_assocSet (l : List (BinCtx × BinInfo)) (c : BinCtx) (v : BinInfo)
    (h : keysNodup l) : countKey c (assocSet l c v) = 1 := by
  induction l with
  | nil => simp [assocSet, countKey, List.filter]
  | cons p t ih =>
    obtain ⟨k0, v0⟩ := p
    unfold keysNodup at h
    simp only [List.map_cons, List.nodup_cons] at h
    by_cases hk : c = k0
    · subst hk
      have h0 : countKey c t = 0 := countKey_zero_of_not_mem t c h.1
      unfold countKey at h0 ⊢
      simp [assocSet, List.filter_cons, h0]
    · simp only [assocSet, hk, if_false]
      have hne : decide ((k0 : BinCtx) = c) = false := by
        simp [Ne.symm hk]
      unfold countKey
      rw [List.filter_cons]
      simp only [hne, if_false]
      simpa [countKey] using ih h.2

theorem assocGet_insertVar_self (l : List (String × String)) (k v : String) :
    assocGet k (insertVar k v l) = some v := by
  induction l with
  | nil => simp [insertVar, assocGet]
  | cons p t ih =>
    obtain ⟨k0, v0⟩ := p
    by_cases h1 : k < k0
    · simp [insertVar, h1, assocGet]
    · by_cases h2 : k = k0
      · simp [insertVar, h1, h2, assocGet]
      · simp [insertVar, h1, h2, assocGet, ih]

theorem assocGet_insertVar_ne (l : List (String × String)) (k k' v : String)
    (hne : k' ≠ k) : assocGet k' (insertVar k v l) = assocGet k' l := by
  induction l with
  | nil => simp [insertVar, assocGet, hne]
  | cons p t ih =>
    obtain ⟨k0, v0⟩ := p
    by_cases h1 : k < k0
    · simp [insertVar, h1, assocGet, hne]
    · by_cases h2 : k = k0
      · subst h2
        simp [insertVar, h1, assocGet, hne]
      · by_cases h3 : k' = k0 <;> simp [insertVar, h1, h2, assocGet, h3, ih]

theorem assocGet_removeVar_ne (l : List (String × String)) (k k' : String)
    (hne : k' ≠ k) : assocGet k' (removeVar k l) = assocGet k' l := by
  induction l with
  | nil => rfl
  | cons p t ih =>
    obtain ⟨k0, v0⟩ := p
    by_cases h : k = k0
    · subst h
      simp [removeVar, assocGet, hne]
    · by_cases h2 : k' = k0 <;> simp [removeVar, h, assocGet, h2, ih]

theorem assocGet_removeVar_self (l : List (String × String)) (k : String)
    (h : (l.map Prod.fst).Nodup) : assocGet k (removeVar k l) = none := by
  induction l with
  | nil => rfl
  | cons p t ih =>
    obtain ⟨k0, v0⟩ := p
    simp only [List.map_cons, List.nodup_cons] at h
    by_cases hk : k = k0
    · subst hk
      simpa [removeVar] using assocGet_eq_none t k h.1
    · simp [removeVar, hk, assocGet, ih h.2]

theorem natComp_self (a : Nat) : natComp a a = .eq := by
  simp [natComp]

theorem natComp_swap (a b : Nat) : natComp a b = (natComp b a).swap := by
  unfold natComp
  rcases Nat.lt_trichotomy a b with h | h | h
  · simp [h, Nat.lt_asymm h, Ordering.swap]
  · subst h
    simp [Nat.lt_irrefl, Ordering.swap]
  · simp [h, Nat.lt_asymm h, Ordering.swap]

theorem strComp_self (a : String) : strComp a a = .eq := by
  simp [strComp]

theorem strComp_swap (a b : String) : strComp a b = (strComp b a).swap := by
  unfold strComp
  rcases lt_trichotomy a b with h | h | h
  · simp [h, ne_of_lt h, (ne_of_lt h).symm, not_lt_of_gt h, Ordering.swap]
  · subst h
    simp [Ordering.swap]
  · simp [h, ne_of_gt h, (ne_of_gt h).symm, not_lt_of_gt h, Ordering.swap]

theorem preIdComp_self (a : PreId) : PreId.comp a a = .eq := by
  cases a <;> simp [PreId.comp, natComp_self, strComp_self]

theorem preIdComp_swap (a b : PreId) : PreId.comp a b = (PreId.comp b a).swap := by
  cases a with
  | num m =>
    cases b with
    | num n =>
      simp only [PreId.comp]
      exact natComp_swap m n
    | alpha s => rfl
  | alpha s =>
    cases b with
    | num n => rfl
    | alpha t =>
      simp only [PreId.comp]
      exact strComp_swap s t

theorem preListComp_self (l : List PreId) : preListComp l l = .eq := by
  induction l with
  | nil => rfl
  | cons a t ih => simp [preListComp, preIdComp_self, ih]

theorem preListComp_swap (a b : List PreId) : preListComp a b = (preListComp b a).swap := by
  induction a generalizing b with
  | nil => cases b <;> rfl
  | cons x xs ih =>
    cases b with
    | nil => rfl
    | cons y ys =>
      rw [preListComp, preListComp, preIdComp_swap x y]
      cases PreId.comp y x <;> simp [Ordering.swap, ih ys]

theorem preComp_self (l : List PreId) : preComp l l = .eq := by
  cases l with
  | nil => rfl
  | cons a t => simpa [preComp] using preListComp_self (a :: t)

theorem preComp_swap (a b : List PreId) : preComp a b = (preComp b a).swap := by
  cases a with
  | nil => cases b <;> rfl
  | cons x xs =>
    cases b with
    | nil => rfl
    | cons y ys => simpa [preComp] using preListComp_swap (x :: xs) (y :: ys)

theorem versionComp_self (a : Version) : a.comp a = .eq := by
  simp [Version.comp, natComp_self, preComp_self]

theorem versionComp_swap (a b : Version) : a.comp b = (b.comp a).swap := by
  unfold Version.comp
  rw [natComp_swap a.major, natComp_swap a.minor, natComp_swap a.patch, preComp_swap]
  cases natComp b.major a.major <;> cases natComp b.minor a.minor <;>
    cases natComp b.patch a.patch <;> cases preComp b.pre a.pre <;> rfl

theorem Version.lt_irrefl (a : Version) : Version.lt a a = false := by
  simp [Version.lt, versionComp_self]

theorem Version.lt_asymm {a b : Version} (h : Version.lt a b = true) :
    Version.lt b a = false := by
  simp only [Version.lt, decide_eq_true_eq] at h
  rw [versionComp_swap] at h
  simp only [Version.lt, decide_eq_false_iff_not]
  cases hc : b.comp a <;> simp [hc, Ordering.swap] at h ⊢

theorem find_desc_max {l : List (Version × Installation)} {p : Version × Installation → Bool}
    {x : Version × Installation}
    (hp : List.Pairwise (fun a b => Version.lt b.1 a.1 = true) l)
    (hf : l.find? p = some x) :
    ∀ y ∈ l, p y = true → Version.lt x.1 y.1 = false := by
  induction l with
  | nil => simp at hf
  | cons a t ih =>
    rw [List.pairwise_cons] at hp
    by_cases hpa : p a = true
    · rw [List.find?_cons_of_pos t hpa] at hf
      injection hf with hf
      subst hf
      intro y hy hpy
      rcases List.mem_cons.mp hy with rfl | hy
      · exact Version.lt_irrefl _
      · exact Version.lt_asymm (hp.1 y hy)
    · rw [List.find?_cons_of_neg t (by simpa using hpa)] at hf
      intro y hy hpy
      rcases List.mem_cons.mp hy with rfl | hy
      · exact absurd hpy hpa
      · exact ih hp.2 hf y hy hpy

theorem manifest_get_some {m : Manifest} {name : String} {req : VersionReq}
    {version : Version} {path : String}
    (h : m.get name req = some (version, path)) :
    reqMatches req version = true
    ∧ (version, path) ∈ (toolListOf m name).map (fun p => (p.1, p.2.path)) := by
  unfold Manifest.get at h
  unfold toolListOf
  cases hl : assocGet name m.tools with
  | none =>
    rw [hl] at h
    cases h
  | some tool =>
    rw [hl] at h
    dsimp only [] at h
    cases hf : tool.reverse.find? (fun p => reqMatches req p.1) with
    | none =>
      rw [hf] at h
      cases h
    | some q =>
      rw [hf] at h
      dsimp only [] at h
      simp only [Option.some.injEq, Prod.mk.injEq] at h
      have hq1 := List.find?_some hf
      have hq2 := List.mem_reverse.mp (List.mem_of_find?_eq_some hf)
      constructor
      · rw [← h.1]
        simpa using hq1
      · simp only [Option.getD_some]
        exact List.mem_map.mpr ⟨q, hq2, by simp [h.1, h.2]⟩

theorem manifest_get_max {m : Manifest} {name : String} {req : VersionReq}
    {version : Version} {path : String}
    (hs : List.Pairwise (fun a b => Version.lt a.1 b.1 = true) (toolListOf m name))
    (h : m.get name req = some (version, path)) :
    ∀ q ∈ toolListOf m name, reqMatches req q.1 = true → Version.lt version q.1 = false := by
  unfold Manifest.get at h
  unfold toolListOf at hs ⊢
  cases hl : assocGet name m.tools with
  | none =>
    rw [hl] at h
    cases h
  | some tool =>
    rw [hl] at h
    dsimp only [] at h
    rw [hl] at hs
    simp only [Option.getD_some] at hs ⊢
    cases hf : tool.reverse.find? (fun p => reqMatches req p.1) with
    | none =>
      rw [hf] at h
      cases h
    | some q =>
      rw [hf] at h
      dsimp only [] at h
      simp only [Option.some.injEq, Prod.mk.injEq] at h
      have hdesc : List.Pairwise (fun a b => Version.lt b.1 a.1 = true) tool.reverse :=
        List.pairwise_reverse.mpr hs
      intro y hy hmy
      have := find_desc_max hdesc hf y (List.mem_reverse.mpr hy) hmy
      rw [← h.1]
      exact this

theorem manifest_get_none (m : Manifest) (name : String) (req : VersionReq) :
    m.get name req = none ↔ ∀ q ∈ toolListOf m name, reqMatches req q.1 = false := by
  unfold Manifest.get toolListOf
  cases hl : assocGet name m.tools with
  | none => simp
  | some tool =>
    simp only [Option.getD_some]
    cases hf : tool.reverse.find? (fun p => reqMatches req p.1) with
    | none =>
      constructor
      · intro _ q hq
        simpa using List.find?_eq_none.mp hf q (List.mem_reverse.mpr hq)
      · intro _
        rfl
    | some q =>
      have hq1 := List.find?_some hf
      have hq2 := List.mem_reverse.mp (List.mem_of_find?_eq_some hf)
      constructor
      · intro hcontra
        cases hcontra
      · intro hall
        rw [hall q hq2] at hq1
        cases hq1

theorem manifest_get_remove {m : Manifest} {name : String} {req : VersionReq}
    {version : Version} {path : String}
    (h : m.get name req = some (version, path)) :
    (m.remove name version).1 = true := by
  unfold Manifest.get at h
  unfold Manifest.remove
  cases hl : assocGet name m.tools with
  | none =>
    rw [hl] at h
    cases h
  | some tool =>
    rw [hl] at h
    dsimp only [] at h
    cases hf : tool.reverse.find? (fun p => reqMatches req p.1) with
    | none =>
      rw [hf] at h
      cases h
    | some q =>
      rw [hf] at h
      dsimp only [] at h
      simp only [Option.some.injEq, Prod.mk.injEq] at h
      have hq2 := List.mem_reverse.mp (List.mem_of_find?_eq_some hf)
      dsimp only []
      rw [List.any_eq_true]
      exact ⟨q, hq2, by simp [h.1]⟩

theorem version_frame {ts : Toolset} {name : String} {probe : BinCtx → ProbeResult}
    {c : BinCtx} {vo : Option Version} {ts1 : Toolset} {eff : Effects}
    (h : ts.version name probe c = .ok (vo, ts1, eff)) :
    ts1.manifest = ts.manifest ∧ ts1.tools_dir = ts.tools_dir
    ∧ ts1.working_dir = ts.working_dir ∧ ts1.environment = ts.environment
    ∧ eff.saves = 0 ∧ eff.warns = [] ∧ eff.setups = 0 := by
  unfold Toolset.version at h
  cases hch : cacheHit ts.bins name c with
  | some v =>
    rw [hch] at h
    simp only [Except.ok.injEq, Prod.mk.injEq] at h
    obtain ⟨-, h2, h3⟩ := h
    subst h2
    subst h3
    simp [Effects.empty]
  | none =>
    rw [hch] at h
    unfold Toolset.probeBin at h
    cases hp : probe c with
    | fails msg =>
      rw [hp] at h
      cases h
    | notFound =>
      rw [hp] at h
      simp only [Except.ok.injEq, Prod.mk.injEq] at h
      obtain ⟨-, h2, h3⟩ := h
      subst h2
      subst h3
      simp
    | found v =>
      rw [hp] at h
      simp only [Except.ok.injEq, Prod.mk.injEq] at h
      obtain ⟨-, h2, h3⟩ := h
      subst h2
      subst h3
      simp

theorem verify_frame {ts : Toolset} {name : String} {probe : BinCtx → ProbeResult}
    {c : BinCtx} {req : VersionReq} {vo : Option Version} {ts1 : Toolset} {eff : Effects}
    (h : ts.verify name probe c req = .ok (vo, ts1, eff)) :
    ts1.manifest = ts.manifest ∧ ts1.tools_dir = ts.tools_dir
    ∧ ts1.working_dir = ts.working_dir ∧ ts1.environment = ts.environment
    ∧ eff.saves = 0 ∧ eff.warns = [] ∧ eff.setups = 0 := by
  unfold Toolset.verify at h
  cases hv : ts.version name probe c with
  | error e =>
    rw [hv] at h
    cases h
  | ok r =>
    obtain ⟨vo', ts', eff'⟩ := r
    rw [hv] at h
    cases vo' with
    | none =>
      simp only [Except.ok.injEq, Prod.mk.injEq] at h
      obtain ⟨-, h2, h3⟩ := h
      subst h2
      subst h3
      exact version_frame hv
    | some v =>
      by_cases hm : reqMatches req v = true
      · simp only [hm, if_true] at h
        simp only [Except.ok.injEq, Prod.mk.injEq] at h
        obtain ⟨-, h2, h3⟩ := h
        subst h2
        subst h3
        exact version_frame hv
      · simp only [Bool.not_eq_true] at hm
        simp only [hm] at h
        cases h

theorem get_session_hit {ts : Toolset} {tool : ToolImpl} {probe : BinCtx → ProbeResult}
    {today : Date} {req : VersionReq} {binctx : BinCtx} {info : BinInfo}
    (h : sessionFind ts.bins tool.name req = some (binctx, info)) :
    ts.get tool probe today (some req) = .ok (binctx, ts, Effects.empty) := by
  unfold Toolset.get
  dsimp only []
  rw [h]

theorem get_manifest_hit {ts : Toolset} {tool : ToolImpl} {probe : BinCtx → ProbeResult}
    {today : Date} {req : VersionReq} {version : Version} {path : String}
    (hsess : sessionFind ts.bins tool.name req = none)
    (hman : tool.managed = true)
    (hget : ts.manifest.get tool.name req = some (version, path)) :
    ts.get tool probe today (some req) = manifestHitStep tool probe today req ts version path := by
  unfold Toolset.get
  dsimp only []
  rw [hsess]
  simp only [hman, if_true]
  rw [hget]

theorem manifestHitStep_ok {tool : ToolImpl} {probe : BinCtx → ProbeResult} {today : Date}
    {req : VersionReq} {ts : Toolset} {version : Version} {path : String}
    {v : Version} {ts1 : Toolset} {eff : Effects}
    (hver : ts.verify tool.name probe (ts.binctx (resolvePath ts.tools_dir path))
        (exactReq version) = .ok (some v, ts1, eff)) :
    manifestHitStep tool probe today req ts version path =
      .ok (ts.binctx (resolvePath ts.tools_dir path),
           { ts1 with manifest := (ts1.manifest.mark_used tool.name version today).2 },
           if (ts1.manifest.mark_used tool.name version today).1 then eff.app Effects.oneSave
           else eff) := by
  unfold manifestHitStep
  rw [hver]

theorem manifestHitStep_stale {tool : ToolImpl} {probe : BinCtx → ProbeResult} {today : Date}
    {req : VersionReq} {ts : Toolset} {version : Version} {path : String}
    {ts1 : Toolset} {eff : Effects}
    (hver : ts.verify tool.name probe (ts.binctx (resolvePath ts.tools_dir path))
        (exactReq version) = .ok (none, ts1, eff)) :
    manifestHitStep tool probe today req ts version path =
      getDefaultStage tool probe today req
        { ts1 with manifest := (ts1.manifest.remove tool.name version).2 }
        ((eff.app ⟨[], 0, [warnStale tool.name (ts.binctx (resolvePath ts.tools_dir path)).path], 0⟩).app
          (if (ts1.manifest.remove tool.name version).1 then Effects.oneSave
           else Effects.empty)) := by
  unfold manifestHitStep
  rw [hver]

theorem toolPathCount_cons (x : Version × Installation) (l : List (Version × Installation))
    (q : String) :
    toolPathCount (x :: l) q = (if x.2.path = q then 1 else 0) + toolPathCount l q := by
  unfold toolPathCount
  rw [List.filter_cons]
  by_cases h : x.2.path = q <;> simp [h, Nat.add_comm]

theorem toolPathCount_filter_le (tool : List (Version × Installation))
    (pred : Version × Installation → Bool) (q : String) :
    toolPathCount (tool.filter pred) q ≤ toolPathCount tool q := by
  induction tool with
  | nil => simp [toolPathCount]
  | cons a t ih =>
    rw [List.filter_cons, toolPathCount_cons]
    by_cases hp : pred a = true
    · rw [if_pos hp, toolPathCount_cons]
      omega
    · rw [if_neg hp]
      omega

theorem toolPathCount_filter_ne (tool : List (Version × Installation)) (path : String) :
    toolPathCount (tool.filter (fun p => decide (p.2.path ≠ path))) path = 0 := by
  induction tool with
  | nil => rfl
  | cons a t ih =>
    rw [List.filter_cons]
    by_cases h : a.2.path = path
    · simpa [h] using ih
    · simp [toolPathCount_cons, h]
      simpa using ih

theorem toolPathCount_btreeInsert_le (v : Version) (inst : Installation)
    (l : List (Version × Installation)) (q : String) :
    toolPathCount (btreeInsert v inst l) q ≤
      toolPathCount l q + (if inst.path = q then 1 else 0) := by
  induction l with
  | nil =>
    unfold btreeInsert
    rw [toolPathCount_cons]
    simp [toolPathCount]
  | cons a t ih =>
    obtain ⟨v0, i0⟩ := a
    unfold btreeInsert
    cases Version.comp v v0 with
    | lt =>
      simp only [toolPathCount_cons]
      dsimp only []
      omega
    | eq =>
      simp only [toolPathCount_cons]
      dsimp only []
      omega
    | gt =>
      simp only [toolPathCount_cons]
      dsimp only []
      omega

theorem filter_of_tpc_zero (l : List (Version × Installation)) (q : String)
    (h : toolPathCount l q = 0) :
    l.filter (fun p => decide (p.2.path = q)) = [] := by
  unfold toolPathCount at h
  exact List.length_eq_zero.mp h

theorem filter_btreeInsert_evict (v : Version) (inst : Installation)
    (l : List (Version × Installation)) (h : toolPathCount l inst.path = 0) :
    (btreeInsert v inst l).filter (fun p => decide (p.2.path = inst.path)) = [(v, inst)] := by
  induction l with
  | nil => simp [btreeInsert, List.filter]
  | cons a t ih =>
    obtain ⟨v0, i0⟩ := a
    rw [toolPathCount_cons] at h
    have hne : ¬ i0.path = inst.path := by
      by_cases hc : i0.path = inst.path
      · rw [if_pos hc] at h
        omega
      · exact hc
    have ht : toolPathCount t inst.path = 0 := by
      rw [if_neg hne] at h
      omega
    unfold btreeInsert
    cases Version.comp v v0 with
    | lt => simp [List.filter_cons, hne, filter_of_tpc_zero t inst.path ht]
    | eq => simp [List.filter_cons, filter_of_tpc_zero t inst.path ht]
    | gt => simp [List.filter_cons, hne, ih ht]

theorem toolPathCount_assocSet_inst {tool : List (Version × Installation)} {version : Version}
    {inst : Installation} (h : assocGet version tool = some inst) (d : Date) (q : String) :
    toolPathCount (assocSet tool version ⟨inst.path, d⟩) q = toolPathCount tool q := by
  induction tool with
  | nil => cases h
  | cons a t ih =>
    obtain ⟨v0, i0⟩ := a
    unfold assocGet at h
    by_cases hv : version = v0
    · rw [if_pos hv] at h
      injection h with h
      subst h
      subst hv
      simp [assocSet, toolPathCount_cons]
    · rw [if_neg hv] at h
      simp [assocSet, hv, toolPathCount_cons, ih h]

theorem assocGet_filter_ne (tool : List (Version × Installation)) (version : Version) :
    assocGet version (tool.filter (fun p => decide (p.1 ≠ version))) = none := by
  induction tool with
  | nil => rfl
  | cons a t ih =>
    obtain ⟨v0, i0⟩ := a
    rw [List.filter_cons]
    by_cases h : v0 = version
    · simpa [h] using ih
    · simp [h, assocGet, Ne.symm h]
      simpa using ih

theorem mark_used_eq {m : Manifest} {name : String} {version : Version} {today : Date}
    {tool : List (Version × Installation)} {inst : Installation}
    (h1 : assocGet name m.tools = some tool)
    (h2 : assocGet version tool = some inst) :
    m.mark_used name version today =
      (if inst.used < today
       then (true, ⟨assocSet m.tools name (assocSet tool version ⟨inst.path, today⟩)⟩)
       else (false, m)) := by
  unfold Manifest.mark_used
  rw [h1]
  dsimp only []
  rw [h2]

theorem remove_expunges {m : Manifest} {name : String} {version : Version}
    {tool : List (Version × Installation)}
    (h : assocGet name m.tools = some tool) :
    assocGet version (toolListOf (m.remove name version).2 name) = none := by
  unfold Manifest.remove
  rw [h]
  dsimp only []
  unfold toolListOf
  rw [assocGet_assocSet_self]
  simp only [Option.getD_some]
  exact assocGet_filter_ne tool version

theorem manifest_get_tools {m : Manifest} {name : String} {req : VersionReq}
    {version : Version} {path : String}
    (h : m.get name req = some (version, path)) :
    ∃ tool, assocGet name m.tools = some tool := by
  unfold Manifest.get at h
  cases hl : assocGet name m.tools with
  | none =>
    rw [hl] at h
    cases h
  | some tool => exact ⟨tool, rfl⟩

/-- C1 counterexample: with two cached ripgrep contexts both satisfying
`>=1.0.0`, `Toolset::get` returns the first entry in cache iteration
order (version 1.0.0) even though a different cached context holds the
higher satisfying version 2.0.0, so the highest-version tie-break claimed
for the session cache does not hold. -/
theorem claim_C1_counterexample :
    tsC1.get ripgrepTool probeNone 0 (some reqGe1) = .ok (ctxA, tsC1, Effects.empty)
    ∧ (ctxB, BinInfo.mk "ripgrep" v200) ∈ tsC1.bins
    ∧ reqMatches reqGe1 v200 = true
    ∧ reqMatches reqGe1 v100 = true
    ∧ Version.lt v100 v200 = true
    ∧ ctxA ≠ ctxB := by
  decide

/-- C1 (amended): if the session cache holds one or more contexts whose
cached tool name matches and whose cached version satisfies the
requirement, `Toolset::get` immediately returns the first such context in
cache iteration order — with unchanged state and no probe, install or
manifest write — but not necessarily the one with the highest satisfying
version. -/
theorem claim_C1_amended (ts : Toolset) (tool : ToolImpl) (probe : BinCtx → ProbeResult)
    (today : Date) (req : VersionReq) (binctx : BinCtx) (info : BinInfo)
    (h : sessionFind ts.bins tool.name req = some (binctx, info)) :
    ts.get tool probe today (some req) = .ok (binctx, ts, Effects.empty)
    ∧ (binctx, info) ∈ ts.bins
    ∧ info.name = tool.name
    ∧ reqMatches req info.version = true := by
  have hmem := List.mem_of_find?_eq_some h
  have hpred := List.find?_some h
  simp only [Bool.and_eq_true, decide_eq_true_eq] at hpred
  exact ⟨get_session_hit h, hmem, hpred.1, hpred.2⟩

/-- Witness for the amended C1 at the two-entry session cache. -/
theorem claim_C1_witness :
    sessionFind tsC1.bins ripgrepTool.name reqGe1 = some (ctxA, BinInfo.mk "ripgrep" v100)
    ∧ (tsC1.get ripgrepTool probeNone 0 (some reqGe1) = .ok (ctxA, tsC1, Effects.empty)
       ∧ (ctxA, BinInfo.mk "ripgrep" v100) ∈ tsC1.bins
       ∧ (BinInfo.mk "ripgrep" v100).name = ripgrepTool.name
       ∧ reqMatches reqGe1 (BinInfo.mk "ripgrep" v100).version = true) :=
  ⟨by decide,
   claim_C1_amended tsC1 ripgrepTool probeNone 0 reqGe1 ctxA (BinInfo.mk "ripgrep" v100)
     (by decide)⟩

/-- C4 counterexample: with an empty session cache and a binary that
probes as not-found, the outcome is returned with the state unchanged —
nothing is cached — so a second `Toolset::version` call for the very same
context probes again: two calls issue two probes, refuting the claim that
a not-found outcome is cached and the context never re-probed. -/
theorem claim_C4_counterexample :
    probeCountTwoCalls tsC4 "ripgrep" probeNone ctxC4 = 2
    ∧ tsC4.version "ripgrep" probeNone ctxC4 = .ok (none, tsC4, ⟨[ctxC4], 0, [], 0⟩) := by
  decide

/-- C4 (amended): `Toolset::version` first consults the session cache by
context equality (together with the tool name); on a miss it calls
`extract_version` exactly once, and caches the outcome only when a
version was found — a found version is served from the cache with no
probe on any later call, while a not-found outcome leaves the state
unchanged and the same context is probed again later. -/
theorem claim_C4_amended (ts : Toolset) (name : String) (probe : BinCtx → ProbeResult)
    (c : BinCtx) (v : Version)
    (hmiss : cacheHit ts.bins name c = none) :
    (probe c = .notFound → ts.version name probe c = .ok (none, ts, ⟨[c], 0, [], 0⟩))
    ∧ (probe c = .found v →
        ts.version name probe c =
          .ok (some v, { ts with bins := assocSet ts.bins c ⟨name, v⟩ }, ⟨[c], 0, [], 0⟩)
        ∧ ({ ts with bins := assocSet ts.bins c ⟨name, v⟩ } : Toolset).version name probe c =
            .ok (some v, { ts with bins := assocSet ts.bins c ⟨name, v⟩ }, Effects.empty)) := by
  constructor
  · intro hp
    unfold Toolset.version
    rw [hmiss]
    unfold Toolset.probeBin
    rw [hp]
  · intro hp
    constructor
    · unfold Toolset.version
      rw [hmiss]
      unfold Toolset.probeBin
      rw [hp]
    · unfold Toolset.version
      dsimp only []
      have hhit : cacheHit (assocSet ts.bins c ⟨name, v⟩) name c = some v := by
        unfold cacheHit
        rw [assocGet_assocSet_self]
        simp
      rw [hhit]

/-- Witness for the amended C4: a found probe is cached and not re-probed
for the same tool and context. -/
theorem claim_C4_witness :
    cacheHit tsC4.bins "ripgrep" ctxC4 = none
    ∧ (((fun _ => ProbeResult.notFound) ctxC4 = .notFound →
          tsC4.version "ripgrep" (fun _ => ProbeResult.notFound) ctxC4 =
            .ok (none, tsC4, ⟨[ctxC4], 0, [], 0⟩))
       ∧ ((fun _ => ProbeResult.notFound) ctxC4 = .found v123 →
          tsC4.version "ripgrep" (fun _ => ProbeResult.notFound) ctxC4 =
            .ok (some v123, { tsC4 with bins := assocSet tsC4.bins ctxC4 ⟨"ripgrep", v123⟩ },
                 ⟨[ctxC4], 0, [], 0⟩)
          ∧ ({ tsC4 with bins := assocSet tsC4.bins ctxC4 ⟨"ripgrep", v123⟩ } : Toolset).version
              "ripgrep" (fun _ => ProbeResult.notFound) ctxC4 =
              .ok (some v123, { tsC4 with bins := assocSet tsC4.bins ctxC4 ⟨"ripgrep", v123⟩ },
                   Effects.empty))) :=
  ⟨by decide, claim_C4_amended tsC4 "ripgrep" (fun _ => ProbeResult.notFound) ctxC4 v123
    (by decide)⟩

/-- C7 counterexample: a pre-existing `temp-ripgrep` staging path that is
an empty directory exists, yet the staging-directory guard does not abort
the install: the directory is reused, refuting the claim that any
pre-existing staging directory aborts. -/
theorem claim_C7_counterexample :
    pathExists (FsNode.dir 0) = true
    ∧ ripgrepTempCheck (FsNode.dir 0) = .ok (FsNode.dir 0) := by
  decide

/-- C7 (amended): the staging-directory guard of `Ripgrep::set_up` aborts
with an error exactly when the `temp-<tool>` path exists and is not an
empty directory; a missing path or an existing empty directory is passed
through untouched (never deleted, an empty one silently reused), and the
staging path lives at `<tools_dir>/temp-<tool>`. -/
theorem claim_C7_amended (n : FsNode) (ts : Toolset) :
    ripgrepTempCheck n = (if n = .missing ∨ n = .dir 0 then .ok n else .error tempAbortMsg)
    ∧ ts.temp_install_dir "ripgrep" = ts.tools_dir ++ "/temp-" ++ "ripgrep" := by
  refine ⟨?_, rfl⟩
  cases n with
  | missing => rfl
  | file => rfl
  | dir k =>
    cases k with
    | zero => rfl
    | succ j => simp [ripgrepTempCheck, pathExists, empty_dir]

/-- C8 counterexample: a context cached under ripgrep is bypassed and
re-probed by a `version` call for cargo, but when the probe reports
not-found the state is returned unchanged: ripgrep's cached resolution is
not discarded, refuting the unconditional overwrite. -/
theorem claim_C8_counterexample :
    tsC1.version "cargo" probeNone ctxA = .ok (none, tsC1, ⟨[ctxA], 0, [], 0⟩)
    ∧ assocGet ctxA tsC1.bins = some ⟨"ripgrep", v100⟩
    ∧ "ripgrep" ≠ "cargo" := by
  decide

/-- C8 (amended): the session cache keeps at most one entry per binary
context, and a `Toolset::version` call for tool U on a context cached
under a different tool T bypasses the cached entry — `extract_version`
runs again — and a successful probe overwrites the entry with U's
resolution, discarding T's and leaving exactly one entry for that
context (an unsuccessful probe instead leaves T's entry in place). -/
theorem claim_C8 (ts : Toolset) (nameT nameU : String) (probe : BinCtx → ProbeResult)
    (c : BinCtx) (v w : Version)
    (hcached : assocGet c ts.bins = some ⟨nameT, v⟩)
    (hne : nameT ≠ nameU)
    (hkeys : keysNodup ts.bins)
    (hpr : probe c = .found w) :
    ts.version nameU probe c =
      .ok (some w, { ts with bins := assocSet ts.bins c ⟨nameU, w⟩ }, ⟨[c], 0, [], 0⟩)
    ∧ assocGet c (assocSet ts.bins c ⟨nameU, w⟩) = some ⟨nameU, w⟩
    ∧ keysNodup (assocSet ts.bins c ⟨nameU, w⟩)
    ∧ countKey c (assocSet ts.bins c ⟨nameU, w⟩) = 1 := by
  refine ⟨?_, assocGet_assocSet_self _ _ _, nodup_keys_assocSet _ _ _ hkeys,
    countKey_assocSet _ _ _ hkeys⟩
  unfold Toolset.version
  have hch : cacheHit ts.bins nameU c = none := by
    unfold cacheHit
    rw [hcached]
    simp [hne]
  rw [hch]
  unfold Toolset.probeBin
  rw [hpr]

/-- Witness for C8: re-probing a context cached under ripgrep when asked
for cargo. -/
theorem claim_C8_witness :
    (assocGet ctxA tsC1.bins = some ⟨"ripgrep", v100⟩ ∧ keysNodup tsC1.bins)
    ∧ (tsC1.version "cargo" (fun _ => ProbeResult.found v123) ctxA =
         .ok (some v123, { tsC1 with bins := assocSet tsC1.bins ctxA ⟨"cargo", v123⟩ },
              ⟨[ctxA], 0, [], 0⟩)
       ∧ assocGet ctxA (assocSet tsC1.bins ctxA ⟨"cargo", v123⟩) = some ⟨"cargo", v123⟩
       ∧ keysNodup (assocSet tsC1.bins ctxA ⟨"cargo", v123⟩)
       ∧ countKey ctxA (assocSet tsC1.bins ctxA ⟨"cargo", v123⟩) = 1) :=
  ⟨⟨by decide, by unfold keysNodup; decide⟩,
   claim_C8 tsC1 "ripgrep" "cargo" (fun _ => ProbeResult.found v123) ctxA v100 v123
     (by decide) (by decide) (by unfold keysNodup; decide) rfl⟩

/-- C9: `BinCtx::args` replaces the entire fixed argument list rather
than appending to it — applying it twice keeps only the second list — and
two binary contexts are equal as cache keys exactly when their path,
working directory, environment and argument list all agree. -/
theorem claim_C9 (c c1 c2 : BinCtx) (a b : List String) :
    (c.setArgs a).setArgs b = c.setArgs b
    ∧ (c1 = c2 ↔ c1.path = c2.path ∧ c1.working_dir = c2.working_dir
        ∧ c1.environment = c2.environment ∧ c1.args = c2.args) := by
  refine ⟨rfl, ?_⟩
  constructor
  · rintro rfl
    exact ⟨rfl, rfl, rfl, rfl⟩
  · rintro ⟨h1, h2, h3, h4⟩
    cases c1
    cases c2
    simp_all

/-- C10: `Environment::rust(Some(name))` maps RUSTUP_TOOLCHAIN to the
name and `Environment::rust(None)` removes it; every other variable looks
up unchanged under both calls, and the baseline environment created by
`Environment::new` carries RUSTUP_AUTO_INSTALL=0. -/
theorem claim_C10 (e : Environment) (n k : String)
    (hnd : (e.vars.map Prod.fst).Nodup)
    (hk : k ≠ "RUSTUP_TOOLCHAIN") :
    assocGet "RUSTUP_TOOLCHAIN" (e.rust (some n)).vars = some n
    ∧ assocGet "RUSTUP_TOOLCHAIN" (e.rust none).vars = none
    ∧ assocGet k (e.rust (some n)).vars = assocGet k e.vars
    ∧ assocGet k (e.rust none).vars = assocGet k e.vars
    ∧ assocGet "RUSTUP_AUTO_INSTALL" Environment.new.vars = some "0" := by
  refine ⟨?_, ?_, ?_, ?_, rfl⟩
  · exact assocGet_insertVar_self e.vars _ n
  · exact assocGet_removeVar_self e.vars _ hnd
  · exact assocGet_insertVar_ne e.vars _ k n hk
  · exact assocGet_removeVar_ne e.vars _ k hk

/-- Witness for C10 at the default environment and the PATH variable. -/
theorem claim_C10_witness :
    (Environment.new.vars.map Prod.fst).Nodup
    ∧ (assocGet "RUSTUP_TOOLCHAIN" (Environment.new.rust (some "stable")).vars = some "stable"
       ∧ assocGet "RUSTUP_TOOLCHAIN" (Environment.new.rust none).vars = none
       ∧ assocGet "PATH" (Environment.new.rust (some "stable")).vars =
           assocGet "PATH" Environment.new.vars
       ∧ assocGet "PATH" (Environment.new.rust none).vars =
           assocGet "PATH" Environment.new.vars
       ∧ assocGet "RUSTUP_AUTO_INSTALL" Environment.new.vars = some "0") :=
  ⟨by decide, claim_C10 Environment.new "stable" "PATH" (by decide) (by decide)⟩

/-- C3: `Manifest::get` scans the recorded installations of a tool from
highest to lowest version: a returned pair is recorded, satisfies the
requirement, and no recorded satisfying version is strictly higher; and
the result is `none` exactly when no recorded version satisfies the
requirement. -/
theorem claim_C3 (m : Manifest) (name : String) (req : VersionReq)
    (hs : List.Pairwise (fun a b => Version.lt a.1 b.1 = true) (toolListOf m name)) :
    (∀ version path, m.get name req = some (version, path) →
        reqMatches req version = true
        ∧ (version, path) ∈ (toolListOf m name).map (fun p => (p.1, p.2.path))
        ∧ ∀ q ∈ toolListOf m name, reqMatches req q.1 = true → Version.lt version q.1 = false)
    ∧ (m.get name req = none ↔ ∀ q ∈ toolListOf m name, reqMatches req q.1 = false) := by
  refine ⟨?_, manifest_get_none m name req⟩
  intro version path h
  obtain ⟨h1, h2⟩ := manifest_get_some h
  exact ⟨h1, h2, manifest_get_max hs h⟩

/-- Witness for C3: the candidates {1.2.0, 1.2.5, 1.3.0} all satisfy
`>=1.2.0` and the lookup returns 1.3.0. -/
theorem claim_C3_witness :
    List.Pairwise (fun a b => Version.lt a.1 b.1 = true) (toolListOf mC3 "ripgrep")
    ∧ mC3.get "ripgrep" reqGe120 = some (v130, "p3")
    ∧ ((∀ version path, mC3.get "ripgrep" reqGe120 = some (version, path) →
          reqMatches reqGe120 version = true
          ∧ (version, path) ∈ (toolListOf mC3 "ripgrep").map (fun p => (p.1, p.2.path))
          ∧ ∀ q ∈ toolListOf mC3 "ripgrep", reqMatches reqGe120 q.1 = true →
              Version.lt version q.1 = false)
       ∧ (mC3.get "ripgrep" reqGe120 = none ↔
            ∀ q ∈ toolListOf mC3 "ripgrep", reqMatches reqGe120 q.1 = false)) :=
  ⟨by decide, by decide, claim_C3 mC3 "ripgrep" reqGe120 (by decide)⟩

/-- C6: `Manifest::mark_used` leaves the manifest unchanged and returns
false when today is not later than the stored last-used date, and stores
today and returns true when it is later; correspondingly, on a verified
manifest hit `Toolset::get` returns the recorded context and writes the
manifest file exactly once when the stored date advanced and not at all
otherwise. -/
theorem claim_C6 (m : Manifest) (name : String) (version : Version) (today : Date)
    (tool : List (Version × Installation)) (inst : Installation)
    (ts : Toolset) (tool_i : ToolImpl) (probe : BinCtx → ProbeResult) (req : VersionReq)
    (path : String) (ts1 : Toolset) (eff : Effects) (v : Version)
    (h1 : assocGet name m.tools = some tool)
    (h2 : assocGet version tool = some inst)
    (hm : ts.manifest = m)
    (hname : tool_i.name = name)
    (hsess : sessionFind ts.bins tool_i.name req = none)
    (hmanaged : tool_i.managed = true)
    (hget : ts.manifest.get tool_i.name req = some (version, path))
    (hver : ts.verify tool_i.name probe (ts.binctx (resolvePath ts.tools_dir path))
        (exactReq version) = .ok (some v, ts1, eff)) :
    m.mark_used name version today =
      (if inst.used < today
       then (true, ⟨assocSet m.tools name (assocSet tool version ⟨inst.path, today⟩)⟩)
       else (false, m))
    ∧ ts.get tool_i probe today (some req) =
        .ok (ts.binctx (resolvePath ts.tools_dir path),
             { ts1 with manifest := (ts1.manifest.mark_used tool_i.name version today).2 },
             if (ts1.manifest.mark_used tool_i.name version today).1 then eff.app Effects.oneSave
             else eff)
    ∧ (if (ts1.manifest.mark_used tool_i.name version today).1 then eff.app Effects.oneSave
       else eff).saves = (if inst.used < today then 1 else 0) := by
  have hfr := verify_frame hver
  refine ⟨mark_used_eq h1 h2,
    (get_manifest_hit hsess hmanaged hget).trans (manifestHitStep_ok hver), ?_⟩
  rw [hfr.1, hm, hname, mark_used_eq h1 h2]
  by_cases h : inst.used < today <;>
    simp [h, Effects.app, Effects.oneSave, hfr.2.2.2.2.1]

/-- Witness for C6: a manifest hit of ripgrep 1.2.3 whose stored date 3
advances to day 5, saving the manifest exactly once. -/
theorem claim_C6_witness :
    (assocGet "ripgrep" mC6.tools = some [(v123, instC6)]
     ∧ assocGet v123 [(v123, instC6)] = some instC6
     ∧ tsC6.manifest = mC6
     ∧ ripgrepTool.name = "ripgrep"
     ∧ sessionFind tsC6.bins ripgrepTool.name reqEq123 = none
     ∧ ripgrepTool.managed = true
     ∧ tsC6.manifest.get ripgrepTool.name reqEq123 = some (v123, "p")
     ∧ tsC6.verify ripgrepTool.name probeOk (tsC6.binctx (resolvePath tsC6.tools_dir "p"))
         (exactReq v123) = .ok (some v123, ts1C6, effC6))
    ∧ (mC6.mark_used "ripgrep" v123 5 =
        (if instC6.used < 5
         then (true, ⟨assocSet mC6.tools "ripgrep" (assocSet [(v123, instC6)] v123 ⟨instC6.path, 5⟩)⟩)
         else (false, mC6))
       ∧ tsC6.get ripgrepTool probeOk 5 (some reqEq123) =
           .ok (tsC6.binctx (resolvePath tsC6.tools_dir "p"),
                { ts1C6 with manifest := (ts1C6.manifest.mark_used ripgrepTool.name v123 5).2 },
                if (ts1C6.manifest.mark_used ripgrepTool.name v123 5).1 then effC6.app Effects.oneSave
                else effC6)
       ∧ (if (ts1C6.manifest.mark_used ripgrepTool.name v123 5).1 then effC6.app Effects.oneSave
          else effC6).saves = (if instC6.used < 5 then 1 else 0)) :=
  ⟨⟨by decide, by decide, rfl, rfl, by decide, rfl, by decide, by decide⟩,
   claim_C6 mC6 "ripgrep" v123 5 [(v123, instC6)] instC6 tsC6 ripgrepTool probeOk reqEq123
     "p" ts1C6 effC6 v123 (by decide) (by decide) rfl rfl (by decide) rfl (by decide) (by decide)⟩

/-- C2 counterexample: the manifest records ripgrep 1.2.3 at path `p`
and that entry satisfies `=1.2.3`, but the recorded binary reports
version 1.2.4; re-verification is then a hard error and `get` fails on
the entry instead of self-healing, refuting the wrong-version half of
the claim. -/
theorem claim_C2_counterexample :
    isError (tsC2.get ripgrepTool probeC2 5 (some reqEq123)) = true
    ∧ tsC2.manifest.get ripgrepTool.name reqEq123 = some (v123, "p")
    ∧ probeC2 (tsC2.binctx (resolvePath tsC2.tools_dir "p")) = .found v124
    ∧ v124 ≠ v123 := by
  decide

/-- C2 (amended): when a managed tool's manifest entry satisfies the
requirement but the recorded binary is gone (probing reports not-found),
`get` does not fail on that entry: it emits the stale-entry warning,
removes the entry from the manifest, saves the manifest once, and
proceeds to the default-probe and fresh-install stages. -/
theorem claim_C2_amended (ts : Toolset) (tool : ToolImpl) (probe : BinCtx → ProbeResult)
    (today : Date) (req : VersionReq) (version : Version) (path : String)
    (ts1 : Toolset) (eff : Effects)
    (hsess : sessionFind ts.bins tool.name req = none)
    (hman : tool.managed = true)
    (hget : ts.manifest.get tool.name req = some (version, path))
    (hver : ts.verify tool.name probe (ts.binctx (resolvePath ts.tools_dir path))
        (exactReq version) = .ok (none, ts1, eff)) :
    ts.get tool probe today (some req) =
      getDefaultStage tool probe today req
        { ts1 with manifest := (ts1.manifest.remove tool.name version).2 }
        (eff.app ⟨[], 1, [warnStale tool.name (ts.binctx (resolvePath ts.tools_dir path)).path], 0⟩)
    ∧ (ts1.manifest.remove tool.name version).1 = true
    ∧ assocGet version (toolListOf (ts1.manifest.remove tool.name version).2 tool.name) = none := by
  have hfr := verify_frame hver
  have hrem : (ts1.manifest.remove tool.name version).1 = true := by
    rw [hfr.1]
    exact manifest_get_remove hget
  obtain ⟨tool0, htool0⟩ := manifest_get_tools hget
  have hexp : assocGet version (toolListOf (ts1.manifest.remove tool.name version).2 tool.name) =
      none := by
    refine @remove_expunges ts1.manifest tool.name version tool0 ?_
    rw [hfr.1]
    exact htool0
  refine ⟨?_, hrem, hexp⟩
  rw [get_manifest_hit hsess hman hget, manifestHitStep_stale hver, hrem]
  simp [Effects.app, Effects.oneSave, Effects.empty]

/-- Witness for the amended C2: the recorded ripgrep binary is gone, the
entry is evicted with one save and one warning, and resolution proceeds
to the fallback stages. -/
theorem claim_C2_witness :
    (sessionFind tsC2.bins ripgrepTool.name reqEq123 = none
     ∧ ripgrepTool.managed = true
     ∧ tsC2.manifest.get ripgrepTool.name reqEq123 = some (v123, "p")
     ∧ tsC2.verify ripgrepTool.name probeNone (tsC2.binctx (resolvePath tsC2.tools_dir "p"))
         (exactReq v123) = .ok (none, tsC2, effC6))
    ∧ (tsC2.get ripgrepTool probeNone 5 (some reqEq123) =
        getDefaultStage ripgrepTool probeNone 5 reqEq123
          { tsC2 with manifest := (tsC2.manifest.remove ripgrepTool.name v123).2 }
          (effC6.app ⟨[], 1,
            [warnStale ripgrepTool.name (tsC2.binctx (resolvePath tsC2.tools_dir "p")).path], 0⟩)
       ∧ (tsC2.manifest.remove ripgrepTool.name v123).1 = true
       ∧ assocGet v123 (toolListOf (tsC2.manifest.remove ripgrepTool.name v123).2
           ripgrepTool.name) = none) :=
  ⟨⟨by decide, rfl, by decide, by decide⟩,
   claim_C2_amended tsC2 ripgrepTool probeNone 5 reqEq123 v123 "p" tsC2 effC6
     (by decide) rfl (by decide) (by decide)⟩

/-- C5 counterexample: after recording path `p` under tool `a` version
1.0.0 and then under tool `b` version 2.0.0, the manifest associates the
same path with two distinct (tool, version) pairs, refuting the global
at-most-one association. -/
theorem claim_C5_counterexample :
    pathEntries "p" mC5.tools = [("a", v100), ("b", v200)]
    ∧ ("a", v100) ≠ ("b", v200) := by
  decide

/-- C5 (amended): path uniqueness holds within each tool: `Manifest::set`
first evicts every prior entry of the same tool recorded at the same
path, so after `set` that tool's map holds exactly the new entry at the
path, and within-tool path uniqueness is preserved by `set`, `remove`
and `mark_used`; entries of different tools may still share a path. -/
theorem claim_C5_amended (m : Manifest) (name : String) (version : Version) (path : String)
    (today : Date) (hu : pathUniqueWithin m) :
    pathUniqueWithin (m.set name version path today)
    ∧ pathUniqueWithin (m.remove name version).2
    ∧ pathUniqueWithin (m.mark_used name version today).2
    ∧ (toolListOf (m.set name version path today) name).filter
        (fun p => decide (p.2.path = path)) = [(version, ⟨path, today⟩)] := by
  have hset : pathUniqueWithin (m.set name version path today) := by
    intro name' tool' h' q
    unfold Manifest.set at h'
    dsimp only [] at h'
    by_cases hn : name' = name
    · subst hn
      rw [assocGet_assocSet_self] at h'
      injection h' with h'
      subst h'
      have hle := toolPathCount_btreeInsert_le version ⟨path, today⟩
        (((assocGet name' m.tools).getD []).filter (fun p => decide (p.2.path ≠ path))) q
      by_cases hq : path = q
      · subst hq
        have h0 := toolPathCount_filter_ne ((assocGet name' m.tools).getD []) path
        dsimp only [] at hle
        rw [if_pos rfl] at hle
        omega
      · have hle2 := toolPathCount_filter_le ((assocGet name' m.tools).getD [])
          (fun p => decide (p.2.path ≠ path)) q
        have hb : toolPathCount ((assocGet name' m.tools).getD []) q ≤ 1 := by
          cases hl : assocGet name' m.tools with
          | none => simp [toolPathCount]
          | some t0 => simpa using hu name' t0 hl q
        dsimp only [] at hle
        rw [if_neg hq] at hle
        omega
    · rw [assocGet_assocSet_ne _ _ _ _ hn] at h'
      exact hu name' tool' h' q
  have hremove : pathUniqueWithin (m.remove name version).2 := by
    intro name' tool' h' q
    unfold Manifest.remove at h'
    cases hl : assocGet name m.tools with
    | none =>
      rw [hl] at h'
      exact hu name' tool' h' q
    | some t0 =>
      rw [hl] at h'
      dsimp only [] at h'
      by_cases hn : name' = name
      · subst hn
        rw [assocGet_assocSet_self] at h'
        injection h' with h'
        subst h'
        exact le_trans (toolPathCount_filter_le t0 _ q) (hu name' t0 hl q)
      · rw [assocGet_assocSet_ne _ _ _ _ hn] at h'
        exact hu name' tool' h' q
  have hmark : pathUniqueWithin (m.mark_used name version today).2 := by
    intro name' tool' h' q
    unfold Manifest.mark_used at h'
    cases hl : assocGet name m.tools with
    | none =>
      rw [hl] at h'
      exact hu name' tool' h' q
    | some t0 =>
      rw [hl] at h'
      dsimp only [] at h'
      cases hi : assocGet version t0 with
      | none =>
        rw [hi] at h'
        exact hu name' tool' h' q
      | some inst =>
        rw [hi] at h'
        dsimp only [] at h'
        by_cases hlt : inst.used < today
        · rw [if_pos hlt] at h'
          dsimp only [] at h'
          by_cases hn : name' = name
          · subst hn
            rw [assocGet_assocSet_self] at h'
            injection h' with h'
            subst h'
            rw [toolPathCount_assocSet_inst hi today q]
            exact hu name' t0 hl q
          · rw [assocGet_assocSet_ne _ _ _ _ hn] at h'
            exact hu name' tool' h' q
        · rw [if_neg hlt] at h'
          exact hu name' tool' h' q
  have hevict : (toolListOf (m.set name version path today) name).filter
      (fun p => decide (p.2.path = path)) = [(version, ⟨path, today⟩)] := by
    unfold toolListOf Manifest.set
    dsimp only []
    rw [assocGet_assocSet_self]
    simp only [Option.getD_some]
    exact filter_btreeInsert_evict version ⟨path, today⟩ _
      (toolPathCount_filter_ne _ path)
  exact ⟨hset, hremove, hmark, hevict⟩

/-- Witness for the amended C5 starting from the empty manifest. -/
theorem claim_C5_witness :
    pathUniqueWithin (Manifest.new.set "ripgrep" v123 "p" 0)
    ∧ pathUniqueWithin (Manifest.new.remove "ripgrep" v123).2
    ∧ pathUniqueWithin (Manifest.new.mark_used "ripgrep" v123 0).2
    ∧ (toolListOf (Manifest.new.set "ripgrep" v123 "p" 0) "ripgrep").filter
        (fun p => decide (p.2.path = "p")) = [(v123, ⟨"p", 0⟩)] :=
  claim_C5_amended Manifest.new "ripgrep" v123 "p" 0 (fun _ _ h => nomatch h)

end Prep
